import Mathlib

set_option autoImplicit false

namespace SensorBee

/-- Runtime-tagged value stored in a tuple's data map (spec section 3 and
section 9: a tagged sum of the schemaless kinds; only the kinds the pipe tests
exercise are listed). -/
inductive Value where
  | null
  | boolV (b : Bool)
  | intV (n : Int)
  | strV (s : String)
  deriving DecidableEq

/-- Modelled from the spec: the Tuple of the core package (the tuple source file
is absent from the sources; only the test pipe_test.go uses it).  Only the
fields the pipe machinery touches are modelled: the schemaless Data map and the
InputName, which is mutated on each cross-pipe hop (spec section 3). -/
structure Tuple where
  inputName : String
  data : List (String × Value)
  deriving DecidableEq

/-- Drop policy of a pipe (spec section 3 and section 4.1). -/
inductive DropMode where
  | block
  | dropLatest
  | dropOldest
  deriving DecidableEq

/-- Outcome of one Write call on a pipe sender.  The ok and closed outcomes are
the nil error and errPipeClosed of the implementation; blocked marks the point
where the Block policy would suspend the writer until capacity is available
(spec section 4.1 and section 5, suspension points). -/
inductive WriteOut where
  | ok
  | closed
  | blocked
  deriving DecidableEq

/-- Modelled from the spec: the shared state of a pipe (the pipe source file of
the core package is absent from the sources).  A bounded FIFO of tuples with an
edge name, a drop policy, one closed flag per endpoint and a drop counter (spec
section 3 and section 4.1). -/
structure Pipe where
  name : String
  capacity : Nat
  dropMode : DropMode
  queue : List Tuple
  sndClosed : Bool
  rcvClosed : Bool
  drops : Nat
  deriving DecidableEq

/-- Modelled from the spec: newPipe of the core package.  A fresh pipe is open
on both ends, empty, and blocks when full; the tests switch dropMode on the
sender afterwards. -/
def newPipe (name : String) (capacity : Nat) : Pipe :=
  { name := name
    capacity := capacity
    dropMode := DropMode.block
    queue := []
    sndClosed := false
    rcvClosed := false
    drops := 0 }

/-- Modelled from the spec: pipeSender.Write (spec section 4.1).  Writing to a
pipe closed on either end fails with errPipeClosed; otherwise the tuple's
InputName is first set to the pipe's name and the tuple is enqueued, the drop
policy deciding the behaviour on a full queue.  The sender observes a close by
the receiver immediately here: the spec allows a bounded observation lag, and
its section 4.1 invariant demands that no Write succeed once any Close has
completed. -/
def pipeWrite (p : Pipe) (t : Tuple) : Pipe × WriteOut :=
  if p.sndClosed || p.rcvClosed then (p, WriteOut.closed)
  else
    let u := { t with inputName := p.name }
    if p.queue.length < p.capacity then
      ({ p with queue := p.queue ++ [u] }, WriteOut.ok)
    else
      match p.dropMode with
      | DropMode.block => (p, WriteOut.blocked)
      | DropMode.dropLatest => ({ p with drops := p.drops + 1 }, WriteOut.ok)
      | DropMode.dropOldest =>
          ({ p with queue := p.queue.tail ++ [u], drops := p.drops + 1 }, WriteOut.ok)

/-- Outcome of one receive on a pipe receiver: a dequeued tuple together with
the remaining pipe, the closed signal, or pending when the queue is empty while
the sender is still open (a real receiver blocks there; spec section 4.1). -/
inductive RecvResult where
  | tup (t : Tuple) (rest : Pipe)
  | closed
  | pending
  deriving DecidableEq

/-- Modelled from the spec: receiving from a pipe (the range over r.in of the
tests).  Dequeues the head tuple; on an empty queue the closed signal is
reported only after the sender side has closed (spec section 4.1). -/
def pipeRecv (p : Pipe) : RecvResult :=
  match p.queue with
  | t :: rest => RecvResult.tup t { p with queue := rest }
  | [] => if p.sndClosed then RecvResult.closed else RecvResult.pending

/-- Modelled from the spec: pipeSender.Close (spec section 4.1).  Idempotent;
does not drain the FIFO. -/
def pipeCloseSender (p : Pipe) : Pipe :=
  { p with sndClosed := true }

/-- Modelled from the spec: the receiver-side close (spec section 4.1).
Idempotent; signals the sender so that future writes fail; already-enqueued
tuples stay in the FIFO until the consumer drains them. -/
def pipeCloseReceiver (p : Pipe) : Pipe :=
  { p with rcvClosed := true }

/-- Iterates Write over a list of tuples, collecting every call's outcome. -/
def pipeWriteAll (p : Pipe) (ts : List Tuple) : Pipe × List WriteOut :=
  match ts with
  | [] => (p, [])
  | t :: rest =>
    let s := pipeWrite p t
    let s' := pipeWriteAll s.1 rest
    (s'.1, s.2 :: s'.2)

/-- Tuple with a single integer field v, as used by the concrete scenarios of
pipe_test.go. -/
def vTuple (name : String) (n : Int) : Tuple :=
  { inputName := name, data := [("v", Value.intV n)] }

lemma pipeWrite_of_closed (p : Pipe) (t : Tuple)
    (h : p.sndClosed = true ∨ p.rcvClosed = true) :
    pipeWrite p t = (p, WriteOut.closed) := by
  unfold pipeWrite
  rcases h with h | h <;> simp [h]

lemma pipeWriteAll_of_closed (p : Pipe) (ts : List Tuple)
    (h : p.sndClosed = true ∨ p.rcvClosed = true) :
    pipeWriteAll p ts = (p, ts.map fun _ => WriteOut.closed) := by
  induction ts with
  | nil => simp [pipeWriteAll]
  | cons t rest ih => simp [pipeWriteAll, pipeWrite_of_closed p t h, ih]

/-- C2: once Close has completed on either end of a pipe, every subsequent
Write returns the ClosedPipe error and leaves the pipe unchanged (so no Write
can ever succeed after any Close), and Close is idempotent on both ends.  In
this model the sender observes a close by the receiver immediately, which is
within the bounded number of attempts the claim allows. -/
theorem pipe_write_after_close (p : Pipe) (ts : List Tuple) :
    (∀ r ∈ (pipeWriteAll (pipeCloseSender p) ts).2, r = WriteOut.closed) ∧
    (∀ r ∈ (pipeWriteAll (pipeCloseReceiver p) ts).2, r = WriteOut.closed) ∧
    (pipeWriteAll (pipeCloseSender p) ts).1 = pipeCloseSender p ∧
    (pipeWriteAll (pipeCloseReceiver p) ts).1 = pipeCloseReceiver p ∧
    pipeCloseSender (pipeCloseSender p) = pipeCloseSender p ∧
    pipeCloseReceiver (pipeCloseReceiver p) = pipeCloseReceiver p := by
  have hs : pipeWriteAll (pipeCloseSender p) ts
      = (pipeCloseSender p, ts.map fun _ => WriteOut.closed) :=
    pipeWriteAll_of_closed _ _ (Or.inl rfl)
  have hr : pipeWriteAll (pipeCloseReceiver p) ts
      = (pipeCloseReceiver p, ts.map fun _ => WriteOut.closed) :=
    pipeWriteAll_of_closed _ _ (Or.inr rfl)
  refine ⟨?_, ?_, ?_, ?_, rfl, rfl⟩
  · intro r hrr
    rw [hs] at hrr
    obtain ⟨a, -, ha⟩ := List.mem_map.mp hrr
    exact ha.symm
  · intro r hrr
    rw [hr] at hrr
    obtain ⟨a, -, ha⟩ := List.mem_map.mp hrr
    exact ha.symm
  · rw [hs]
  · rw [hr]

/-- C4: on a capacity-1 pipe in DropLatest mode, two back-to-back writes both
return ok; a single read then yields the first tuple (the incoming second
tuple was discarded) and leaves the queue empty. -/
theorem dropLatest_scenario :
    (pipeWrite { newPipe "test" 1 with dropMode := DropMode.dropLatest }
        (vTuple "hoge" 1)).2 = WriteOut.ok ∧
    (pipeWrite (pipeWrite { newPipe "test" 1 with dropMode := DropMode.dropLatest }
        (vTuple "hoge" 1)).1 (vTuple "hoge" 2)).2 = WriteOut.ok ∧
    pipeRecv (pipeWrite (pipeWrite { newPipe "test" 1 with dropMode := DropMode.dropLatest }
        (vTuple "hoge" 1)).1 (vTuple "hoge" 2)).1 =
      RecvResult.tup (vTuple "test" 1)
        { (pipeWrite (pipeWrite { newPipe "test" 1 with dropMode := DropMode.dropLatest }
            (vTuple "hoge" 1)).1 (vTuple "hoge" 2)).1 with queue := [] } := by
  refine ⟨rfl, rfl, rfl⟩

/-- C5: on a capacity-1 pipe in DropOldest mode, two back-to-back writes both
return ok; the head tuple was evicted for the second one, so a single read
yields the second tuple and leaves the queue empty. -/
theorem dropOldest_scenario :
    (pipeWrite { newPipe "test" 1 with dropMode := DropMode.dropOldest }
        (vTuple "hoge" 1)).2 = WriteOut.ok ∧
    (pipeWrite (pipeWrite { newPipe "test" 1 with dropMode := DropMode.dropOldest }
        (vTuple "hoge" 1)).1 (vTuple "hoge" 2)).2 = WriteOut.ok ∧
    pipeRecv (pipeWrite (pipeWrite { newPipe "test" 1 with dropMode := DropMode.dropOldest }
        (vTuple "hoge" 1)).1 (vTuple "hoge" 2)).1 =
      RecvResult.tup (vTuple "test" 2)
        { (pipeWrite (pipeWrite { newPipe "test" 1 with dropMode := DropMode.dropOldest }
            (vTuple "hoge" 1)).1 (vTuple "hoge" 2)).1 with queue := [] } := by
  refine ⟨rfl, rfl, rfl⟩

/-- C6: a successful Write that enqueues sets the tuple's InputName to the pipe
name before enqueueing and leaves its Data unchanged: the resulting queue is
the previous one followed by the renamed tuple, and when the queue was empty
the receiver dequeues exactly that renamed tuple. -/
theorem pipe_write_sets_inputName (p : Pipe) (t : Tuple)
    (hsnd : p.sndClosed = false) (hrcv : p.rcvClosed = false)
    (hroom : p.queue.length < p.capacity) :
    (pipeWrite p t).2 = WriteOut.ok ∧
    (pipeWrite p t).1.queue = p.queue ++ [{ t with inputName := p.name }] ∧
    ({ t with inputName := p.name }).data = t.data ∧
    (p.queue = [] →
      pipeRecv (pipeWrite p t).1 =
        RecvResult.tup { t with inputName := p.name }
          { (pipeWrite p t).1 with queue := [] }) := by
  have hw : pipeWrite p t =
      ({ p with queue := p.queue ++ [{ t with inputName := p.name }] }, WriteOut.ok) := by
    unfold pipeWrite
    simp [hsnd, hrcv, hroom]
  refine ⟨by rw [hw], by rw [hw], rfl, ?_⟩
  intro hq
  rw [hw]
  simp [pipeRecv, hq]

/-- Witness for C6 at the single-pipe delivery scenario of the spec: pipe named
p of capacity 1; the tuple written with InputName hoge arrives renamed to p
with its data intact. -/
theorem pipe_write_sets_inputName_witness :
    (newPipe "p" 1).sndClosed = false ∧
    (newPipe "p" 1).rcvClosed = false ∧
    (newPipe "p" 1).queue.length < (newPipe "p" 1).capacity ∧
    pipeRecv (pipeWrite (newPipe "p" 1) (vTuple "hoge" 1)).1 =
      RecvResult.tup (vTuple "p" 1)
        { (pipeWrite (newPipe "p" 1) (vTuple "hoge" 1)).1 with queue := [] } := by
  have h := pipe_write_sets_inputName (newPipe "p" 1) (vTuple "hoge" 1) rfl rfl (by decide)
  exact ⟨rfl, rfl, by decide, h.2.2.2 rfl⟩

/-- The distinguishable error values of the core (spec section 7): writing to a
closed pipe or distributor, adding a duplicate edge name, and an operation
incompatible with the current lifecycle state. -/
inductive CoreError where
  | pipeClosed
  | duplicateName
  | wrongState
  deriving DecidableEq

/-- Modelled from the spec: dataDestinations of the core package (that source
file is absent; its tests are in pipe_test.go).  The fan-out distributor holds
the named destination pipes (sender ends), the paused flag of the pause
condition, and whether Close has been called on it (spec section 3 and 4.3). -/
structure DataDestinations where
  dsts : List (String × Pipe)
  paused : Bool
  closed : Bool
  deriving DecidableEq

/-- Modelled from the spec: newDataDestinations of the core package; an empty,
unpaused, open distributor. -/
def newDataDestinations : DataDestinations :=
  { dsts := [], paused := false, closed := false }

/-- Modelled from the spec: the broadcast step of dataDestinations.Write (spec
section 4.3).  Each current destination receives its own copy of the tuple via
its pipe's Write; a destination whose pipe reports errPipeClosed (its receiver
side closed) is evicted from the set; every other destination keeps its updated
pipe. -/
def writeToDsts (t : Tuple) : List (String × Pipe) → List (String × Pipe)
  | [] => []
  | (n, p) :: rest =>
    if (pipeWrite p t).2 = WriteOut.closed then writeToDsts t rest
    else (n, (pipeWrite p t).1) :: writeToDsts t rest

/-- Modelled from the spec: dataDestinations.Write once it has passed the pause
gate (spec section 4.3).  It broadcasts to every current destination, evicting
on errPipeClosed, and returns ok even if some destinations were evicted; it
fails only when the whole distributor has been closed. -/
def ddWrite (dd : DataDestinations) (t : Tuple) : DataDestinations × Option CoreError :=
  if dd.closed then (dd, some CoreError.pipeClosed)
  else ({ dd with dsts := writeToDsts t dd.dsts }, none)

/-- Modelled from the spec: the pause gate at the head of
dataDestinations.Write (spec section 4.3).  While the paused flag is set, a
Write call blocks on the pause condition and does not complete, so the attempt
is none; otherwise the call completes as ddWrite. -/
def ddWriteAttempt (dd : DataDestinations) (t : Tuple) :
    Option (DataDestinations × Option CoreError) :=
  if dd.paused then none else some (ddWrite dd t)

/-- Modelled from the spec: dataDestinations.pause (spec section 4.3). -/
def ddPause (dd : DataDestinations) : DataDestinations :=
  { dd with paused := true }

/-- Modelled from the spec: dataDestinations.resume (spec section 4.3). -/
def ddResume (dd : DataDestinations) : DataDestinations :=
  { dd with paused := false }

/-- Modelled from the spec: dataDestinations.add (spec section 4.3).  Fails on a
closed distributor or on a duplicate edge name; otherwise the new destination
joins the set together with whatever already sits in its pipe (a fresh pipe is
empty, so the new destination holds none of the tuples broadcast earlier). -/
def ddAdd (dd : DataDestinations) (name : String) (p : Pipe) :
    DataDestinations × Option CoreError :=
  if dd.closed then (dd, some CoreError.pipeClosed)
  else if dd.dsts.any (fun np => np.1 == name) then (dd, some CoreError.duplicateName)
  else ({ dd with dsts := dd.dsts ++ [(name, p)] }, none)

/-- Looks up the pipe of the first destination carrying the given name. -/
def findDst (name : String) : List (String × Pipe) → Option Pipe
  | [] => none
  | (n, p) :: rest => if n = name then some p else findDst name rest

/-- Iterates ddWrite over a list of tuples, keeping the distributor state. -/
def ddWriteAll (dd : DataDestinations) (ts : List Tuple) : DataDestinations :=
  ts.foldl (fun d t => (ddWrite d t).1) dd

lemma pipeWrite_ok_of_room (p : Pipe) (t : Tuple)
    (h1 : p.sndClosed = false) (h2 : p.rcvClosed = false)
    (h3 : p.queue.length < p.capacity) :
    pipeWrite p t =
      ({ p with queue := p.queue ++ [{ t with inputName := p.name }] }, WriteOut.ok) := by
  unfold pipeWrite
  simp [h1, h2, h3]

lemma writeToDsts_names (t : Tuple) (l : List (String × Pipe)) :
    ∀ q ∈ writeToDsts t l, q.1 ∈ l.map Prod.fst := by
  induction l with
  | nil => simp [writeToDsts]
  | cons hd rest ih =>
    obtain ⟨n, p⟩ := hd
    intro q hq
    by_cases hcl : (pipeWrite p t).2 = WriteOut.closed
    · simp only [writeToDsts, if_pos hcl] at hq
      exact List.mem_cons_of_mem _ (ih q hq)
    · simp only [writeToDsts, if_neg hcl, List.mem_cons] at hq
      rcases hq with hq | hq
      · simp [hq]
      · exact List.mem_cons_of_mem _ (ih q hq)

/-- C3: when Write on an open DataDestinations returns (it returns ok), every
destination live at that moment (receiver not closed) has exactly one renamed
copy of the tuple enqueued on its pipe, and every destination whose pipe
reported errPipeClosed because its receiver closed has been removed from the
set; the surviving updated destinations remain in the set for later writes. -/
theorem ddwrite_broadcast_and_evict (dd : DataDestinations) (t : Tuple)
    (hc : dd.closed = false)
    (hnd : (dd.dsts.map Prod.fst).Nodup)
    (hlive : ∀ np ∈ dd.dsts, np.2.sndClosed = false ∧
      (np.2.rcvClosed = true ∨ np.2.queue.length < np.2.capacity)) :
    (ddWrite dd t).2 = none ∧
    (∀ np ∈ dd.dsts, np.2.rcvClosed = false →
      (np.1, { np.2 with queue := np.2.queue ++ [{ t with inputName := np.2.name }] })
        ∈ (ddWrite dd t).1.dsts) ∧
    (∀ np ∈ dd.dsts, np.2.rcvClosed = true →
      ∀ q ∈ (ddWrite dd t).1.dsts, q.1 ≠ np.1) := by
  have hdd : (ddWrite dd t).1.dsts = writeToDsts t dd.dsts := by
    simp [ddWrite, hc]
  have main : ∀ l : List (String × Pipe), (l.map Prod.fst).Nodup →
      (∀ np ∈ l, np.2.sndClosed = false ∧
        (np.2.rcvClosed = true ∨ np.2.queue.length < np.2.capacity)) →
      (∀ np ∈ l, np.2.rcvClosed = false →
        (np.1, { np.2 with queue := np.2.queue ++ [{ t with inputName := np.2.name }] })
          ∈ writeToDsts t l) ∧
      (∀ np ∈ l, np.2.rcvClosed = true → ∀ q ∈ writeToDsts t l, q.1 ≠ np.1) := by
    intro l
    induction l with
    | nil => intro _ _; exact ⟨by simp, by simp⟩
    | cons hd rest ih =>
      intro hnd' hlive'
      obtain ⟨n, p⟩ := hd
      have hnotin : n ∉ rest.map Prod.fst := (List.nodup_cons.mp hnd').1
      have hndr : (rest.map Prod.fst).Nodup := (List.nodup_cons.mp hnd').2
      have hliver : ∀ np ∈ rest, np.2.sndClosed = false ∧
          (np.2.rcvClosed = true ∨ np.2.queue.length < np.2.capacity) :=
        fun np h => hlive' np (List.mem_cons_of_mem _ h)
      have hhd := hlive' (n, p) (List.mem_cons_self _ _)
      obtain ⟨ihmem, ihevic⟩ := ih hndr hliver
      by_cases hrcv : p.rcvClosed = true
      · have hcl : (pipeWrite p t).2 = WriteOut.closed := by
          rw [pipeWrite_of_closed p t (Or.inr hrcv)]
        have hw : writeToDsts t ((n, p) :: rest) = writeToDsts t rest := by
          simp [writeToDsts, hcl]
        constructor
        · intro np hnp hfalse
          rcases List.mem_cons.mp hnp with hnp | hnp
          · exfalso
            rw [hnp] at hfalse
            simp only at hfalse
            rw [hrcv] at hfalse
            exact Bool.true_eq_false.mp hfalse
          · rw [hw]; exact ihmem np hnp hfalse
        · intro np hnp htrue q hq
          rw [hw] at hq
          rcases List.mem_cons.mp hnp with hnp | hnp
          · have := writeToDsts_names t rest q hq
            intro hqe
            rw [hnp] at hqe
            simp only at hqe
            rw [hqe] at this
            exact hnotin this
          · exact ihevic np hnp htrue q hq
      · have hrcv' : p.rcvClosed = false := by
          cases h : p.rcvClosed
          · rfl
          · exact absurd h hrcv
        have hroom : p.queue.length < p.capacity := by
          rcases hhd.2 with h | h
          · exact absurd h hrcv
          · exact h
        have hok := pipeWrite_ok_of_room p t hhd.1 hrcv' hroom
        have hw : writeToDsts t ((n, p) :: rest) =
            (n, { p with queue := p.queue ++ [{ t with inputName := p.name }] })
              :: writeToDsts t rest := by
          simp [writeToDsts, hok]
        constructor
        · intro np hnp hfalse
          rcases List.mem_cons.mp hnp with hnp | hnp
          · rw [hw, hnp]
            exact List.mem_cons_self _ _
          · rw [hw]
            exact List.mem_cons_of_mem _ (ihmem np hnp hfalse)
        · intro np hnp htrue q hq
          rcases List.mem_cons.mp hnp with hnp | hnp
          · exfalso
            rw [hnp] at htrue
            simp only at htrue
            rw [hrcv'] at htrue
            exact Bool.false_eq_true.mp htrue
          · rw [hw] at hq
            rcases List.mem_cons.mp hq with hq | hq
            · rw [hq]
              simp only
              intro hqe
              rw [hqe] at hnotin
              exact hnotin (List.mem_map.mpr ⟨np, hnp, rfl⟩)
            · exact ihevic np hnp htrue q hq
  obtain ⟨hmem, hevic⟩ := main dd.dsts hnd hlive
  refine ⟨by simp [ddWrite, hc], ?_, ?_⟩
  · intro np hnp hfalse
    rw [hdd]
    exact hmem np hnp hfalse
  · intro np hnp htrue q hq
    rw [hdd] at hq
    exact hevic np hnp htrue q hq

/-- Distributor used to witness the fan-out eviction claim: destination d1 has
its receiver closed, destination d2 is live. -/
def c3dd : DataDestinations :=
  { dsts := [("d1", { newPipe "t1" 1 with rcvClosed := true }), ("d2", newPipe "t2" 1)],
    paused := false, closed := false }

/-- Witness for C3: on the concrete two-destination distributor, Write returns
ok, evicts the receiver-closed destination d1 and appends one renamed copy to
the live destination d2. -/
theorem ddwrite_broadcast_and_evict_witness :
    c3dd.closed = false ∧ (c3dd.dsts.map Prod.fst).Nodup ∧
    (∀ np ∈ c3dd.dsts, np.2.sndClosed = false ∧
      (np.2.rcvClosed = true ∨ np.2.queue.length < np.2.capacity)) ∧
    (ddWrite c3dd (vTuple "x" 1)).2 = none ∧
    (ddWrite c3dd (vTuple "x" 1)).1.dsts =
      [("d2", { newPipe "t2" 1 with queue := [vTuple "t2" 1] })] := by
  refine ⟨rfl, by decide, by decide, ?_, by decide⟩
  exact (ddwrite_broadcast_and_evict c3dd (vTuple "x" 1) rfl (by decide) (by decide)).1

/-- C9: after pause on a DataDestinations every subsequent Write blocks inside
the distributor and does not complete; once resume is called the blocked Write
completes and returns ok. -/
theorem pause_blocks_resume_unblocks (dd : DataDestinations) (t : Tuple)
    (h : dd.closed = false) :
    ddWriteAttempt (ddPause dd) t = none ∧
    ddWriteAttempt (ddResume (ddPause dd)) t =
      some (ddWrite (ddResume (ddPause dd)) t) ∧
    (ddWrite (ddResume (ddPause dd)) t).2 = none := by
  refine ⟨?_, ?_, ?_⟩ <;> simp [ddWriteAttempt, ddPause, ddResume, ddWrite, h]

/-- Witness for C9 at a concrete distributor: the paused write attempt does not
complete, and after resume it completes with ok. -/
theorem pause_blocks_resume_unblocks_witness :
    newDataDestinations.closed = false ∧
    ddWriteAttempt (ddPause newDataDestinations) (vTuple "x" 1) = none ∧
    (ddWrite (ddResume (ddPause newDataDestinations)) (vTuple "x" 1)).2 = none := by
  have h := pause_blocks_resume_unblocks newDataDestinations (vTuple "x" 1) rfl
  exact ⟨rfl, h.1, h.2.2⟩

lemma findDst_writeToDsts (n : String) (t : Tuple) (l : List (String × Pipe))
    (p : Pipe) (hfind : findDst n l = some p)
    (h1 : p.sndClosed = false) (h2 : p.rcvClosed = false)
    (h3 : p.queue.length < p.capacity) :
    findDst n (writeToDsts t l) =
      some { p with queue := p.queue ++ [{ t with inputName := p.name }] } := by
  induction l with
  | nil => simp [findDst] at hfind
  | cons hd rest ih =>
    obtain ⟨m, q⟩ := hd
    by_cases hm : m = n
    · subst hm
      have hq : q = p := by simpa [findDst] using hfind
      subst hq
      have hok := pipeWrite_ok_of_room q t h1 h2 h3
      simp [writeToDsts, hok, findDst]
    · have hfind' : findDst n rest = some p := by
        simpa [findDst, hm] using hfind
      by_cases hcl : (pipeWrite q t).2 = WriteOut.closed
      · simp only [writeToDsts, if_pos hcl]
        exact ih hfind'
      · simp only [writeToDsts, if_neg hcl, findDst, if_neg hm]
        exact ih hfind'

lemma ddWriteAll_findDst (n : String) (ts : List Tuple) (dd : DataDestinations)
    (p : Pipe) (hc : dd.closed = false)
    (hfind : findDst n dd.dsts = some p)
    (h1 : p.sndClosed = false) (h2 : p.rcvClosed = false)
    (hroom : p.queue.length + ts.length ≤ p.capacity) :
    (ddWriteAll dd ts).closed = false ∧
    findDst n (ddWriteAll dd ts).dsts =
      some { p with queue := p.queue ++ ts.map fun t => { t with inputName := p.name } } := by
  induction ts generalizing dd p with
  | nil =>
    refine ⟨by simpa [ddWriteAll] using hc, ?_⟩
    simpa [ddWriteAll] using hfind
  | cons t rest ih =>
    have hstep : (ddWrite dd t).1 = { dd with dsts := writeToDsts t dd.dsts } := by
      simp [ddWrite, hc]
    have hall : ddWriteAll dd (t :: rest) = ddWriteAll (ddWrite dd t).1 rest := rfl
    have hroom1 : p.queue.length < p.capacity := by
      have : p.queue.length + (rest.length + 1) ≤ p.capacity := by
        simpa [List.length_cons] using hroom
      omega
    have hfind1 : findDst n (ddWrite dd t).1.dsts =
        some { p with queue := p.queue ++ [{ t with inputName := p.name }] } := by
      rw [hstep]
      exact findDst_writeToDsts n t dd.dsts p hfind h1 h2 hroom1
    have hc1 : (ddWrite dd t).1.closed = false := by rw [hstep]; exact hc
    have hroom' :
        ({ p with queue := p.queue ++ [{ t with inputName := p.name }] } : Pipe).queue.length
          + rest.length
          ≤ ({ p with queue := p.queue ++ [{ t with inputName := p.name }] } : Pipe).capacity := by
      simp only [List.length_append, List.length_cons, List.length_nil]
      simp only [List.length_cons] at hroom
      omega
    obtain ⟨hcf, hff⟩ := ih (ddWrite dd t).1
      { p with queue := p.queue ++ [{ t with inputName := p.name }] } hc1 hfind1 h1 h2 hroom'
    rw [hall]
    refine ⟨hcf, ?_⟩
    rw [hff]
    simp

/-- C10: a destination added after earlier Write calls receives none of the
previously broadcast tuples (its pipe starts empty), and after the add it
receives exactly the renamed copies of the tuples passed to the subsequent
Write calls, in order. -/
theorem added_dest_receives_only_later (dd : DataDestinations) (n : String)
    (p : Pipe) (ts : List Tuple)
    (hc : dd.closed = false)
    (hq : p.queue = []) (h1 : p.sndClosed = false) (h2 : p.rcvClosed = false)
    (hcap : ts.length ≤ p.capacity)
    (hfresh : dd.dsts.any (fun np => np.1 == n) = false) :
    (ddAdd dd n p).2 = none ∧
    findDst n (ddAdd dd n p).1.dsts = some p ∧
    findDst n (ddWriteAll (ddAdd dd n p).1 ts).dsts =
      some { p with queue := ts.map fun t => { t with inputName := p.name } } := by
  have hadd : ddAdd dd n p = ({ dd with dsts := dd.dsts ++ [(n, p)] }, none) := by
    simp [ddAdd, hc, hfresh]
  have happ : ∀ l : List (String × Pipe), l.any (fun np => np.1 == n) = false →
      findDst n (l ++ [(n, p)]) = some p := by
    intro l
    induction l with
    | nil => intro _; simp [findDst]
    | cons hd rest ih =>
      intro hl
      obtain ⟨m, q⟩ := hd
      simp only [List.any_cons, Bool.or_eq_false_iff] at hl
      have hm : ¬ m = n := by
        intro hmn
        rw [hmn] at hl
        simpa using hl.1
      simp only [List.cons_append, findDst, if_neg hm]
      exact ih hl.2
  have hfind : findDst n (ddAdd dd n p).1.dsts = some p := by
    rw [hadd]
    exact happ dd.dsts hfresh
  refine ⟨by rw [hadd], hfind, ?_⟩
  have hc' : (ddAdd dd n p).1.closed = false := by rw [hadd]; exact hc
  have hroom : p.queue.length + ts.length ≤ p.capacity := by
    rw [hq]; simpa using hcap
  have h := (ddWriteAll_findDst n ts (ddAdd dd n p).1 p hc' hfind h1 h2 hroom).2
  rw [h, hq]
  simp

/-- Witness for C10: the fresh destination d3 added to a one-destination
distributor sees none of the earlier traffic and exactly the two tuples
written after the add. -/
theorem added_dest_receives_only_later_witness :
    (newDataDestinations.closed = false ∧ (newPipe "t3" 2).queue = [] ∧
      (newPipe "t3" 2).sndClosed = false ∧ (newPipe "t3" 2).rcvClosed = false ∧
      ([vTuple "x" 1, vTuple "x" 2] : List Tuple).length ≤ (newPipe "t3" 2).capacity ∧
      newDataDestinations.dsts.any (fun np => np.1 == "d3") = false) ∧
    findDst "d3"
        (ddWriteAll (ddAdd newDataDestinations "d3" (newPipe "t3" 2)).1
          [vTuple "x" 1, vTuple "x" 2]).dsts =
      some { newPipe "t3" 2 with queue := [vTuple "t3" 1, vTuple "t3" 2] } := by
  have h := added_dest_receives_only_later newDataDestinations "d3" (newPipe "t3" 2)
    [vTuple "x" 1, vTuple "x" 2] rfl rfl rfl rfl (by decide) (by decide)
  refine ⟨⟨rfl, rfl, rfl, rfl, by decide, by decide⟩, ?_⟩
  rw [h.2.2]
  decide

/-- Lifecycle state shared by nodes, DataSources and DataDestinations (spec
section 4.4).  In this model pour passes through Starting atomically, so the
intermediate states appear only as values. -/
inductive TSState where
  | initialized
  | starting
  | running
  | paused
  | stopping
  | stopped
  deriving DecidableEq

/-- Modelled from the spec: dataSources of the core package (that source file
is absent; its tests are in pipe_test.go).  The fan-in aggregator holds the
named input pipes (receiver ends), its lifecycle state, the numErrors counter,
the graceful-stop flag and, as the observation of the downstream writer
installed at pour time, the list of tuples delivered to that writer so far
(spec section 3 and 4.2). -/
structure DataSources where
  inputs : List (String × Pipe)
  state : TSState
  numErrors : Nat
  gracefulStop : Bool
  delivered : List Tuple
  deriving DecidableEq

/-- Modelled from the spec: newDataSources of the core package; an aggregator
that has not been started yet. -/
def newDataSources : DataSources :=
  { inputs := [], state := TSState.initialized, numErrors := 0,
    gracefulStop := false, delivered := [] }

/-- Modelled from the spec: the entry of dataSources.pour (spec sections 4.2
and 4.4).  Pour moves a freshly initialized aggregator through Starting into
Running and enters the multiplex loop; calling it in any other state, in
particular a second time or after stop, fails with ErrWrongState. -/
def dsPour (ds : DataSources) : DataSources × Option CoreError :=
  if ds.state = TSState.initialized then
    ({ ds with state := TSState.running }, none)
  else (ds, some CoreError.wrongState)

/-- Modelled from the spec: dataSources.enableGracefulStop (spec section 4.2);
sets the drain-on-stop flag. -/
def dsEnableGracefulStop (ds : DataSources) : DataSources :=
  { ds with gracefulStop := true }

/-- Writes the tuple to the first input pipe carrying the given name and
reports that pipe's Write outcome; an absent name reports none and changes
nothing. -/
def writeToInputs (name : String) (t : Tuple) :
    List (String × Pipe) → List (String × Pipe) × Option WriteOut
  | [] => ([], none)
  | (n, p) :: rest =>
    if n = name then
      ((n, (pipeWrite p t).1) :: rest, some (pipeWrite p t).2)
    else
      ((n, p) :: (writeToInputs name t rest).1, (writeToInputs name t rest).2)

/-- An upstream sender writing to the named input pipe of the aggregator (the
senders held by pipe_test.go). -/
def dsWriteInput (ds : DataSources) (name : String) (t : Tuple) :
    DataSources × Option WriteOut :=
  ({ ds with inputs := (writeToInputs name t ds.inputs).1 },
    (writeToInputs name t ds.inputs).2)

/-- Dequeues the head tuple of the named input, when that input exists and its
queue is nonempty. -/
def recvFromInputs (name : String) :
    List (String × Pipe) → Option (Tuple × List (String × Pipe))
  | [] => none
  | (n, p) :: rest =>
    if n = name then
      match p.queue with
      | [] => none
      | t :: q => some (t, (n, { p with queue := q }) :: rest)
    else
      match recvFromInputs name rest with
      | none => none
      | some s => some (s.1, (n, p) :: s.2)

/-- Modelled from the spec: one iteration of the pour multiplex loop (spec
section 4.2).  While Running, a ready tuple of the named input is dequeued and
handed to the downstream writer; on writer success it is recorded as delivered,
on a writer error numErrors is incremented and the tuple dropped, and the loop
continues either way. -/
def dsDeliverStep (w : Tuple → Bool) (ds : DataSources) (name : String) : DataSources :=
  if ds.state = TSState.running then
    match recvFromInputs name ds.inputs with
    | none => ds
    | some s =>
      if w s.1 then { ds with inputs := s.2, delivered := ds.delivered ++ [s.1] }
      else { ds with inputs := s.2, numErrors := ds.numErrors + 1 }
  else ds

/-- The upstream sender of the named input closes its end cleanly. -/
def closeSndInputs (name : String) : List (String × Pipe) → List (String × Pipe)
  | [] => []
  | (n, p) :: rest =>
    if n = name then (n, pipeCloseSender p) :: rest
    else (n, p) :: closeSndInputs name rest

/-- Hands every tuple of one queue to the writer, extending the delivered list
on success and the error count on failure. -/
def drainQueue (w : Tuple → Bool) (acc : List Tuple × Nat) (q : List Tuple) :
    List Tuple × Nat :=
  q.foldl (fun a t => if w t then (a.1 ++ [t], a.2) else (a.1, a.2 + 1)) acc

/-- Modelled from the spec: dataSources.stop (spec sections 4.2 and 5).
Idempotent; a never-started aggregator transitions directly to Stopped;
otherwise every input receiver is closed and the aggregator passes Stopping and
reaches Stopped, with the already-enqueued tuples first drained through the
downstream writer when the graceful-stop flag is set and discarded otherwise. -/
def dsStop (w : Tuple → Bool) (ds : DataSources) : DataSources :=
  if ds.state = TSState.stopped then ds
  else if ds.state = TSState.initialized then { ds with state := TSState.stopped }
  else
    let acc :=
      if ds.gracefulStop then
        ds.inputs.foldl (fun a np => drainQueue w a np.2.queue)
          (ds.delivered, ds.numErrors)
      else (ds.delivered, ds.numErrors)
    { ds with
      inputs := ds.inputs.map
        fun np => (np.1, { pipeCloseReceiver np.2 with queue := [] }),
      state := TSState.stopped,
      delivered := acc.1,
      numErrors := acc.2 }

/-- One interleaving step of the fan-in scenario: an upstream write to a named
input, one multiplex-loop delivery from a named input, or a clean upstream
close of a named input. -/
inductive DSEvent where
  | write (name : String) (t : Tuple)
  | deliver (name : String)
  | closeSnd (name : String)
  deriving DecidableEq

/-- Applies one scenario event to the aggregator. -/
def dsStep (w : Tuple → Bool) (ds : DataSources) (e : DSEvent) : DataSources :=
  match e with
  | DSEvent.write n t => (dsWriteInput ds n t).1
  | DSEvent.deliver n => dsDeliverStep w ds n
  | DSEvent.closeSnd n => { ds with inputs := closeSndInputs n ds.inputs }

/-- Runs a whole scenario trace. -/
def dsRun (w : Tuple → Bool) (ds : DataSources) (evs : List DSEvent) : DataSources :=
  evs.foldl (dsStep w) ds

/-- Contribution of one event to the count of accepted upstream writes: one
when the event is a write that the input pipe accepted, zero otherwise. -/
def evAccepted (ds : DataSources) (e : DSEvent) : Nat :=
  match e with
  | DSEvent.write n t => if (dsWriteInput ds n t).2 = some WriteOut.ok then 1 else 0
  | _ => 0

/-- Counts the write events of a trace that the input pipe accepted, that is,
the tuples successfully written to the aggregator's input pipes. -/
def dsAcceptedCount (w : Tuple → Bool) (ds : DataSources) : List DSEvent → Nat
  | [] => 0
  | e :: rest => evAccepted ds e + dsAcceptedCount w (dsStep w ds e) rest

/-- Total number of tuples sitting in the aggregator's input queues. -/
def queuedTotal (ds : DataSources) : Nat :=
  (ds.inputs.map fun np => np.2.queue.length).sum

/-- All input pipes of the aggregator use the Block drop policy (the default of
newPipe; the fan-in tests never change it). -/
def allBlock (ds : DataSources) : Prop :=
  ∀ np ∈ ds.inputs, np.2.dropMode = DropMode.block

/-- Conserved quantity of the fan-in run: everything accepted from upstream is
delivered, counted as a writer error, or still queued. -/
def dsMeasure (ds : DataSources) : Nat :=
  ds.delivered.length + ds.numErrors + queuedTotal ds

lemma pipeWrite_block (p : Pipe) (t : Tuple) (hb : p.dropMode = DropMode.block) :
    ((pipeWrite p t).2 = WriteOut.ok ∧
      (pipeWrite p t).1.queue.length = p.queue.length + 1 ∧
      (pipeWrite p t).1.dropMode = p.dropMode) ∨
    ((pipeWrite p t).2 ≠ WriteOut.ok ∧ (pipeWrite p t).1 = p) := by
  unfold pipeWrite
  by_cases hc : (p.sndClosed || p.rcvClosed) = true
  · right; simp [hc]
  · by_cases hr : p.queue.length < p.capacity
    · left
      simp only [hc, Bool.false_eq_true, if_false, if_pos hr]
      simp
    · right
      simp only [hc, Bool.false_eq_true, if_false, if_neg hr, hb]
      simp

lemma writeToInputs_spec (name : String) (t : Tuple) (l : List (String × Pipe))
    (hb : ∀ np ∈ l, np.2.dropMode = DropMode.block) :
    (((writeToInputs name t l).1.map fun np => np.2.queue.length).sum
        = (l.map fun np => np.2.queue.length).sum
          + (if (writeToInputs name t l).2 = some WriteOut.ok then 1 else 0)) ∧
    (∀ np ∈ (writeToInputs name t l).1, np.2.dropMode = DropMode.block) := by
  induction l with
  | nil => simp [writeToInputs]
  | cons hd rest ih =>
    obtain ⟨n, p⟩ := hd
    have hp : p.dropMode = DropMode.block := hb (n, p) (List.mem_cons_self _ _)
    have hbr : ∀ np ∈ rest, np.2.dropMode = DropMode.block :=
      fun np h => hb np (List.mem_cons_of_mem _ h)
    by_cases hn : n = name
    · have hwi : writeToInputs name t ((n, p) :: rest)
          = ((n, (pipeWrite p t).1) :: rest, some (pipeWrite p t).2) := by
        simp [writeToInputs, hn]
      rcases pipeWrite_block p t hp with ⟨h1, h2, h3⟩ | ⟨h1, h2⟩
      · constructor
        · rw [hwi]
          simp only [List.map_cons, List.sum_cons, h1, h2]
          simp
          omega
        · intro np hnp
          rw [hwi] at hnp
          rcases List.mem_cons.mp hnp with hnp | hnp
          · rw [hnp]
            simpa [h3] using hp
          · exact hbr np hnp
      · constructor
        · rw [hwi]
          simp only [List.map_cons, List.sum_cons, h2]
          have : ¬ (some (pipeWrite p t).2 = some WriteOut.ok) := by
            intro hcon
            exact h1 (Option.some_injective _ hcon)
          simp [this]
        · intro np hnp
          rw [hwi] at hnp
          rcases List.mem_cons.mp hnp with hnp | hnp
          · rw [hnp]
            simpa [h2] using hp
          · exact hbr np hnp
    · have hwi : writeToInputs name t ((n, p) :: rest)
          = ((n, p) :: (writeToInputs name t rest).1, (writeToInputs name t rest).2) := by
        simp [writeToInputs, hn]
      obtain ⟨ih1, ih2⟩ := ih hbr
      constructor
      · rw [hwi]
        simp only [List.map_cons, List.sum_cons, ih1]
        omega
      · intro np hnp
        rw [hwi] at hnp
        rcases List.mem_cons.mp hnp with hnp | hnp
        · rw [hnp]; exact hp
        · exact ih2 np hnp

lemma recvFromInputs_spec (name : String) (l : List (String × Pipe))
    (s : Tuple × List (String × Pipe)) (h : recvFromInputs name l = some s) :
    ((s.2.map fun np => np.2.queue.length).sum + 1
        = (l.map fun np => np.2.queue.length).sum) ∧
    ((∀ np ∈ l, np.2.dropMode = DropMode.block) →
      ∀ np ∈ s.2, np.2.dropMode = DropMode.block) := by
  induction l generalizing s with
  | nil => simp [recvFromInputs] at h
  | cons hd rest ih =>
    obtain ⟨n, p⟩ := hd
    by_cases hn : n = name
    · cases hq : p.queue with
      | nil =>
        exfalso
        simp [recvFromInputs, hn, hq] at h
      | cons t q =>
        have hs : s = (t, (n, { p with queue := q }) :: rest) := by
          have := h
          simp only [recvFromInputs, if_pos hn, hq] at this
          exact (Option.some_injective _ this).symm ▸ rfl
        constructor
        · rw [hs]
          simp [hq]
          omega
        · intro hb np hnp
          rw [hs] at hnp
          rcases List.mem_cons.mp hnp with hnp | hnp
          · rw [hnp]
            simpa using hb (n, p) (List.mem_cons_self _ _)
          · exact hb np (List.mem_cons_of_mem _ hnp)
    · cases hr : recvFromInputs name rest with
      | none =>
        exfalso
        simp [recvFromInputs, hn, hr] at h
      | some s' =>
        have hs : s = (s'.1, (n, p) :: s'.2) := by
          have := h
          simp only [recvFromInputs, if_neg hn, hr] at this
          exact (Option.some_injective _ this).symm ▸ rfl
        obtain ⟨ih1, ih2⟩ := ih s' hr
        constructor
        · rw [hs]
          simp only [List.map_cons, List.sum_cons]
          omega
        · intro hb np hnp
          rw [hs] at hnp
          rcases List.mem_cons.mp hnp with hnp | hnp
          · rw [hnp]
            exact hb (n, p) (List.mem_cons_self _ _)
          · exact ih2 (fun np h => hb np (List.mem_cons_of_mem _ h)) np hnp

lemma closeSndInputs_spec (name : String) (l : List (String × Pipe)) :
    (((closeSndInputs name l).map fun np => np.2.queue.length)
        = l.map fun np => np.2.queue.length) ∧
    ((∀ np ∈ l, np.2.dropMode = DropMode.block) →
      ∀ np ∈ closeSndInputs name l, np.2.dropMode = DropMode.block) := by
  induction l with
  | nil => simp [closeSndInputs]
  | cons hd rest ih =>
    obtain ⟨n, p⟩ := hd
    by_cases hn : n = name
    · constructor
      · simp [closeSndInputs, hn, pipeCloseSender]
      · intro hb np hnp
        simp only [closeSndInputs, if_pos hn] at hnp
        rcases List.mem_cons.mp hnp with hnp | hnp
        · rw [hnp]
          simpa [pipeCloseSender] using hb (n, p) (List.mem_cons_self _ _)
        · exact hb np (List.mem_cons_of_mem _ hnp)
    · obtain ⟨ih1, ih2⟩ := ih
      constructor
      · simp [closeSndInputs, hn, ih1]
      · intro hb np hnp
        simp only [closeSndInputs, if_neg hn] at hnp
        rcases List.mem_cons.mp hnp with hnp | hnp
        · rw [hnp]
          exact hb (n, p) (List.mem_cons_self _ _)
        · exact ih2 (fun np h => hb np (List.mem_cons_of_mem _ h)) np hnp

lemma dsStep_spec (w : Tuple → Bool) (ds : DataSources) (e : DSEvent)
    (hb : allBlock ds) (hst : ds.state = TSState.running) :
    dsMeasure (dsStep w ds e) = dsMeasure ds + evAccepted ds e ∧
    allBlock (dsStep w ds e) ∧
    (dsStep w ds e).state = TSState.running ∧
    (dsStep w ds e).gracefulStop = ds.gracefulStop ∧
    ((∀ t, w t = true) → (dsStep w ds e).numErrors = ds.numErrors) := by
  cases e with
  | write n t =>
    obtain ⟨h1, h2⟩ := writeToInputs_spec n t ds.inputs hb
    have hstep : dsStep w ds (DSEvent.write n t)
        = { ds with inputs := (writeToInputs n t ds.inputs).1 } := rfl
    rw [hstep]
    refine ⟨?_, ?_, hst, rfl, fun _ => rfl⟩
    · simp only [evAccepted, dsWriteInput, dsMeasure, queuedTotal]
      rw [h1]
      omega
    · intro np hnp
      exact h2 np hnp
  | deliver n =>
    cases hr : recvFromInputs n ds.inputs with
    | none =>
      have hstep : dsStep w ds (DSEvent.deliver n) = ds := by
        simp [dsStep, dsDeliverStep, hst, hr]
      rw [hstep]
      exact ⟨by simp [evAccepted], hb, hst, rfl, fun _ => rfl⟩
    | some s =>
      obtain ⟨h1, h2⟩ := recvFromInputs_spec n ds.inputs s hr
      by_cases hw : w s.1 = true
      · have hstep : dsStep w ds (DSEvent.deliver n)
            = { ds with inputs := s.2, delivered := ds.delivered ++ [s.1] } := by
          simp [dsStep, dsDeliverStep, hst, hr, hw]
        rw [hstep]
        refine ⟨?_, ?_, hst, rfl, fun _ => rfl⟩
        · simp only [evAccepted, dsMeasure, queuedTotal, List.length_append,
            List.length_cons, List.length_nil]
          omega
        · intro np hnp
          exact h2 hb np hnp
      · have hwf : w s.1 = false := by
          cases h : w s.1
          · rfl
          · exact absurd h hw
        have hstep : dsStep w ds (DSEvent.deliver n)
            = { ds with inputs := s.2, numErrors := ds.numErrors + 1 } := by
          simp [dsStep, dsDeliverStep, hst, hr, hwf]
        rw [hstep]
        refine ⟨?_, ?_, hst, rfl, ?_⟩
        · simp only [evAccepted, dsMeasure, queuedTotal]
          omega
        · intro np hnp
          exact h2 hb np hnp
        · intro hall
          exact absurd (hall s.1) hw
  | closeSnd n =>
    obtain ⟨h1, h2⟩ := closeSndInputs_spec n ds.inputs
    have hstep : dsStep w ds (DSEvent.closeSnd n)
        = { ds with inputs := closeSndInputs n ds.inputs } := rfl
    rw [hstep]
    refine ⟨?_, ?_, hst, rfl, fun _ => rfl⟩
    · simp only [evAccepted, dsMeasure, queuedTotal]
      rw [h1]
      omega
    · intro np hnp
      exact h2 hb np hnp

lemma dsRun_spec (w : Tuple → Bool) (evs : List DSEvent) (ds : DataSources)
    (hb : allBlock ds) (hst : ds.state = TSState.running) :
    dsMeasure (dsRun w ds evs) = dsMeasure ds + dsAcceptedCount w ds evs ∧
    allBlock (dsRun w ds evs) ∧
    (dsRun w ds evs).state = TSState.running ∧
    (dsRun w ds evs).gracefulStop = ds.gracefulStop ∧
    ((∀ t, w t = true) → (dsRun w ds evs).numErrors = ds.numErrors) := by
  induction evs generalizing ds with
  | nil => exact ⟨by simp [dsRun, dsAcceptedCount], hb, hst, rfl, fun _ => rfl⟩
  | cons e rest ih =>
    obtain ⟨h1, h2, h3, h4, h5⟩ := dsStep_spec w ds e hb hst
    obtain ⟨g1, g2, g3, g4, g5⟩ := ih (dsStep w ds e) h2 h3
    have hrun : dsRun w ds (e :: rest) = dsRun w (dsStep w ds e) rest := rfl
    have hacc : dsAcceptedCount w ds (e :: rest)
        = evAccepted ds e + dsAcceptedCount w (dsStep w ds e) rest := rfl
    refine ⟨?_, by rw [hrun]; exact g2, by rw [hrun]; exact g3,
      by rw [hrun, g4, h4], ?_⟩
    · rw [hrun, g1, h1, hacc]
      omega
    · intro hall
      rw [hrun, g5 hall, h5 hall]

lemma drainQueue_spec (w : Tuple → Bool) (q : List Tuple) (acc : List Tuple × Nat) :
    (drainQueue w acc q).1.length + (drainQueue w acc q).2
        = acc.1.length + acc.2 + q.length ∧
    ((∀ t, w t = true) → (drainQueue w acc q).2 = acc.2) := by
  induction q generalizing acc with
  | nil => simp [drainQueue]
  | cons t rest ih =>
    have hstep : drainQueue w acc (t :: rest)
        = drainQueue w (if w t then (acc.1 ++ [t], acc.2) else (acc.1, acc.2 + 1)) rest := by
      simp [drainQueue]
    by_cases hw : w t = true
    · rw [hstep]
      simp only [hw, if_true]
      obtain ⟨ih1, ih2⟩ := ih (acc.1 ++ [t], acc.2)
      constructor
      · rw [ih1]; simp; omega
      · intro hall
        rw [ih2 hall]
    · rw [hstep]
      simp only [hw, Bool.false_eq_true, if_false]
      obtain ⟨ih1, ih2⟩ := ih (acc.1, acc.2 + 1)
      constructor
      · rw [ih1]; simp; omega
      · intro hall
        exact absurd (hall t) hw

lemma drainInputs_spec (w : Tuple → Bool) (l : List (String × Pipe))
    (acc : List Tuple × Nat) :
    (l.foldl (fun a np => drainQueue w a np.2.queue) acc).1.length
        + (l.foldl (fun a np => drainQueue w a np.2.queue) acc).2
      = acc.1.length + acc.2 + (l.map fun np => np.2.queue.length).sum ∧
    ((∀ t, w t = true) →
      (l.foldl (fun a np => drainQueue w a np.2.queue) acc).2 = acc.2) := by
  induction l generalizing acc with
  | nil => simp
  | cons hd rest ih =>
    obtain ⟨h1, h2⟩ := drainQueue_spec w hd.2.queue acc
    obtain ⟨g1, g2⟩ := ih (drainQueue w acc hd.2.queue)
    constructor
    · simp only [List.foldl_cons, List.map_cons, List.sum_cons]
      rw [g1]
      omega
    · intro hall
      simp only [List.foldl_cons]
      rw [g2 hall, h2 hall]

lemma dsStop_graceful_spec (w : Tuple → Bool) (ds : DataSources)
    (hst : ds.state = TSState.running) (hg : ds.gracefulStop = true) :
    (dsStop w ds).delivered.length + (dsStop w ds).numErrors = dsMeasure ds ∧
    ((∀ t, w t = true) → (dsStop w ds).numErrors = ds.numErrors) ∧
    (dsStop w ds).state = TSState.stopped := by
  have hstop : dsStop w ds =
      { ds with
        inputs := ds.inputs.map
          fun np => (np.1, { pipeCloseReceiver np.2 with queue := [] }),
        state := TSState.stopped,
        delivered := (ds.inputs.foldl (fun a np => drainQueue w a np.2.queue)
          (ds.delivered, ds.numErrors)).1,
        numErrors := (ds.inputs.foldl (fun a np => drainQueue w a np.2.queue)
          (ds.delivered, ds.numErrors)).2 } := by
    rw [dsStop]
    rw [hst]
    simp [hg]
  obtain ⟨h1, h2⟩ := drainInputs_spec w ds.inputs (ds.delivered, ds.numErrors)
  rw [hstop]
  refine ⟨?_, ?_, rfl⟩
  · simpa [dsMeasure, queuedTotal] using h1
  · intro hall
    simpa using h2 hall

/-- C1: for a DataSources with graceful stop enabled, input pipes in Block
mode, and upstream senders all closed cleanly by the end of the run, Stop makes
the pour loop drain every already-enqueued tuple, so the downstream writer
ends up with exactly as many tuples as were successfully written to all of the
aggregator's input pipes during the run. -/
theorem graceful_stop_drains_all (w : Tuple → Bool) (ds : DataSources)
    (evs : List DSEvent)
    (hw : ∀ t, w t = true)
    (hst : ds.state = TSState.running)
    (hb : allBlock ds)
    (hg : ds.gracefulStop = true)
    (hd : ds.delivered = []) (he : ds.numErrors = 0) (hq : queuedTotal ds = 0)
    (_hclosed : ∀ np ∈ (dsRun w ds evs).inputs, np.2.sndClosed = true) :
    (dsStop w (dsRun w ds evs)).delivered.length = dsAcceptedCount w ds evs := by
  obtain ⟨hm, hball, hstf, hgf, hnum⟩ := dsRun_spec w evs ds hb hst
  obtain ⟨hs1, hs2, _⟩ := dsStop_graceful_spec w (dsRun w ds evs) hstf (by rw [hgf]; exact hg)
  have hm0 : dsMeasure ds = 0 := by
    simp [dsMeasure, hd, he, hq]
  have hnum0 : (dsRun w ds evs).numErrors = 0 := by rw [hnum hw, he]
  have hzero : (dsStop w (dsRun w ds evs)).numErrors = 0 := by rw [hs2 hw, hnum0]
  omega

/-- Fan-in aggregator used to witness the graceful-drain claim: two Block-mode
inputs a and b of capacity 1, already running, graceful stop enabled. -/
def c1ds : DataSources :=
  { inputs := [("a", newPipe "a" 1), ("b", newPipe "b" 1)],
    state := TSState.running, numErrors := 0, gracefulStop := true, delivered := [] }

/-- Scenario trace for the graceful-drain witness: five tuples written to input
a and three to input b, interleaved with enough deliveries to respect the
capacity-1 pipes, then both senders close cleanly, leaving one tuple of each
input still queued for Stop to drain. -/
def c1evs : List DSEvent :=
  [DSEvent.write "a" (vTuple "s" 1), DSEvent.deliver "a",
   DSEvent.write "a" (vTuple "s" 2), DSEvent.deliver "a",
   DSEvent.write "a" (vTuple "s" 3), DSEvent.deliver "a",
   DSEvent.write "a" (vTuple "s" 4), DSEvent.deliver "a",
   DSEvent.write "a" (vTuple "s" 5),
   DSEvent.write "b" (vTuple "s" 6), DSEvent.deliver "b",
   DSEvent.write "b" (vTuple "s" 7), DSEvent.deliver "b",
   DSEvent.write "b" (vTuple "s" 8),
   DSEvent.closeSnd "a", DSEvent.closeSnd "b"]

/-- Witness for C1: on the concrete two-input scenario with five plus three
accepted writes, the writer ends up with exactly eight tuples. -/
theorem graceful_stop_drains_all_witness :
    ((∀ t : Tuple, (fun _ : Tuple => true) t = true) ∧
      c1ds.state = TSState.running ∧ allBlock c1ds ∧ c1ds.gracefulStop = true ∧
      c1ds.delivered = [] ∧ c1ds.numErrors = 0 ∧ queuedTotal c1ds = 0 ∧
      (∀ np ∈ (dsRun (fun _ => true) c1ds c1evs).inputs, np.2.sndClosed = true)) ∧
    (dsStop (fun _ => true) (dsRun (fun _ => true) c1ds c1evs)).delivered.length
      = dsAcceptedCount (fun _ => true) c1ds c1evs ∧
    dsAcceptedCount (fun _ => true) c1ds c1evs = 8 := by
  refine ⟨⟨fun _ => rfl, rfl, by unfold allBlock; decide, rfl, rfl, rfl, rfl, by decide⟩,
    ?_, by decide⟩
  exact graceful_stop_drains_all (fun _ => true) c1ds c1evs (fun _ => rfl) rfl
    (by unfold allBlock; decide) rfl rfl rfl rfl (by decide)

/-- C7: pour succeeds at most once and only before stop: a second pour on an
aggregator whose first pour succeeded fails with ErrWrongState, and stop on a
never-started aggregator transitions it directly to Stopped, after which pour
also fails with ErrWrongState. -/
theorem pour_once_and_stop_before_start (w : Tuple → Bool) (ds ds' : DataSources)
    (h1 : (dsPour ds).2 = none) (h2 : ds'.state = TSState.initialized) :
    (dsPour (dsPour ds).1).2 = some CoreError.wrongState ∧
    (dsStop w ds').state = TSState.stopped ∧
    (dsPour (dsStop w ds')).2 = some CoreError.wrongState := by
  have hinit : ds.state = TSState.initialized := by
    by_cases h : ds.state = TSState.initialized
    · exact h
    · exfalso
      simp [dsPour, h] at h1
  have hstop : dsStop w ds' = { ds' with state := TSState.stopped } := by
    rw [dsStop, h2]
    simp
  refine ⟨?_, by rw [hstop], ?_⟩
  · simp [dsPour, hinit]
  · rw [hstop]
    simp [dsPour]

/-- Witness for C7: a fresh aggregator's first pour succeeds and its second
fails; stopping another fresh aggregator sends it to Stopped and makes pour
fail with ErrWrongState. -/
theorem pour_once_and_stop_before_start_witness :
    ((dsPour newDataSources).2 = none ∧ newDataSources.state = TSState.initialized) ∧
    (dsPour (dsPour newDataSources).1).2 = some CoreError.wrongState ∧
    (dsStop (fun _ => true) newDataSources).state = TSState.stopped ∧
    (dsPour (dsStop (fun _ => true) newDataSources)).2 = some CoreError.wrongState := by
  exact ⟨⟨rfl, rfl⟩,
    pour_once_and_stop_before_start (fun _ => true) newDataSources newDataSources rfl rfl⟩

/-- C8: when the downstream writer returns an error for a delivered tuple, the
aggregator increments numErrors by one, drops the tuple (the delivered list is
unchanged), and keeps pouring: it stays Running and a later stop still
completes in Stopped, so the pour loop returns normally after Stop. -/
theorem writer_error_counted_and_swallowed (w : Tuple → Bool) (ds : DataSources)
    (name : String) (s : Tuple × List (String × Pipe))
    (hst : ds.state = TSState.running)
    (hr : recvFromInputs name ds.inputs = some s)
    (hw : w s.1 = false) :
    (dsDeliverStep w ds name).numErrors = ds.numErrors + 1 ∧
    (dsDeliverStep w ds name).delivered = ds.delivered ∧
    (dsDeliverStep w ds name).state = TSState.running ∧
    (dsStop w (dsDeliverStep w ds name)).state = TSState.stopped := by
  have hstep : dsDeliverStep w ds name =
      { ds with inputs := s.2, numErrors := ds.numErrors + 1 } := by
    simp [dsDeliverStep, hst, hr, hw]
  refine ⟨by rw [hstep], by rw [hstep], by rw [hstep]; exact hst, ?_⟩
  rw [hstep]
  rw [dsStop]
  rw [hst]
  simp

/-- Aggregator used to witness the writer-error claim: one running input a
holding a single queued tuple. -/
def c8ds : DataSources :=
  { inputs := [("a", { newPipe "a" 1 with queue := [vTuple "a" 1] })],
    state := TSState.running, numErrors := 0, gracefulStop := false, delivered := [] }

/-- Witness for C8: with a writer that always fails, delivering the queued
tuple bumps numErrors from 0 to 1, delivers nothing, and the aggregator keeps
running until a stop completes. -/
theorem writer_error_counted_and_swallowed_witness :
    (c8ds.state = TSState.running ∧
      recvFromInputs "a" c8ds.inputs
        = some (vTuple "a" 1, [("a", { newPipe "a" 1 with queue := [] })]) ∧
      (fun _ : Tuple => false) (vTuple "a" 1) = false) ∧
    (dsDeliverStep (fun _ => false) c8ds "a").numErrors = c8ds.numErrors + 1 ∧
    (dsDeliverStep (fun _ => false) c8ds "a").delivered = c8ds.delivered ∧
    (dsStop (fun _ => false) (dsDeliverStep (fun _ => false) c8ds "a")).state
      = TSState.stopped := by
  have h := writer_error_counted_and_swallowed (fun _ => false) c8ds "a"
    (vTuple "a" 1, [("a", { newPipe "a" 1 with queue := [] })]) rfl (by decide) rfl
  exact ⟨⟨rfl, by decide, rfl⟩, h.1, h.2.1, h.2.2.2⟩

end SensorBee
